import Mathlib

set_option autoImplicit false

/-!
Shallow embedding of `src/imageAnalysis.ts` (Docker manifest image extraction
and analysis orchestration).  Strings are processed as `List Char`; the
JavaScript regular expressions used by the source are embedded as explicit
scanning functions with the same left-to-right, continue-after-match
replacement semantics.  Scanning functions that skip past a matched chunk use
a fuel argument initialised to the input length (each step consumes at least
one character, so the fuel never runs out); this keeps every definition
computable by kernel reduction.
-/

/-- Whitespace class of JavaScript regular expressions (`\s`): ASCII
whitespace plus the Unicode space separators, LINE SEPARATOR, PARAGRAPH
SEPARATOR, NBSP, NARROW NBSP, MMSP, IDEOGRAPHIC SPACE and BOM. -/
def jsSpace (c : Char) : Bool :=
  c == ' ' || c == '\t' || c == '\n' || c == '\r' ||
  c.val == 11 || c.val == 12 || c.val == 160 || c.val == 5760 ||
  decide (8192 ≤ c.val ∧ c.val ≤ 8202) ||
  c.val == 8232 || c.val == 8233 || c.val == 8239 || c.val == 8287 ||
  c.val == 12288 || c.val == 65279

/-- Drop the leading run of JavaScript whitespace (the `^\s*` part of the
directive patterns). -/
def dropJsSpaces : List Char → List Char
  | [] => []
  | c :: rest => if jsSpace c then dropJsSpaces rest else c :: rest

/-- JavaScript `String.prototype.trim`: remove leading and trailing
whitespace. -/
def trimJs (l : List Char) : List Char :=
  dropJsSpaces ((dropJsSpaces l.reverse).reverse)

/-- JavaScript `String.prototype.split` with a single-character separator:
`"a=b=c".split('=')` yields `["a","b","c"]`, `"".split('=')` yields `[""]`. -/
def splitOnChar (sep : Char) : List Char → List (List Char)
  | [] => [[]]
  | c :: rest =>
    match splitOnChar sep rest with
    | [] => [[]]
    | s :: ss => if c = sep then [] :: s :: ss else (c :: s) :: ss

/-- Embedding of `line.match(/^\s*KEY\s+(.*)/)`: skip leading whitespace,
require the literal keyword followed by at least one whitespace character,
and return the `(.*)` capture (the text after the maximal whitespace run,
up to the first newline, since `.` does not match a newline). -/
def matchDirective (key : List Char) (line : List Char) : Option (List Char) :=
  if key.isPrefixOf (dropJsSpaces line) then
    match (dropJsSpaces line).drop key.length with
    | [] => none
    | c :: rest =>
      if jsSpace c then
        some ((dropJsSpaces (c :: rest)).takeWhile (fun d => d != '\n'))
      else none
  else none

/-- Keyword of `ARG_REGEX = /^\s*ARG\s+(.*)/`. -/
def ARG_KEYWORD : List Char := "ARG".toList

/-- Keyword of `FROM_REGEX = /^\s*FROM\s+(.*)/`. -/
def FROM_KEYWORD : List Char := "FROM".toList

/-- Lookup in the argument table; the source reads entries with
`this.args.get(key) || ''`, so a missing (or `undefined`) entry behaves as
the empty string. -/
def argsGet (args : List (String × String)) (k : String) : String :=
  match args with
  | [] => ""
  | (n, v) :: rest => if n = k then v else argsGet rest k

/-- `Map.set`: the new binding shadows any earlier binding of the same name
(`argsGet` finds the most recent entry first). -/
def argsSet (args : List (String × String)) (k v : String) : List (String × String) :=
  (k, v) :: args

/-- Match of `/\${([^{}]+)}/` anchored at the start of `l`: a `${`, then a
nonempty run of non-brace characters, then `}`; returns the captured name. -/
def varMatchAt (l : List Char) : Option (List Char) :=
  match l with
  | '$' :: '{' :: rest =>
    let key := rest.takeWhile (fun c => c != '{' && c != '}')
    if key.isEmpty then none
    else
      match rest.drop key.length with
      | '}' :: _ => some key
      | _ => none
  | _ => none

/-- Fuelled scan implementing the global replacement
`imageData.replace(/\${([^{}]+)}/g, key => args.get(key) || '')`:
left to right, each match replaced by the table value and scanning resumed
after the match. -/
def replaceArgsGo (args : List (String × String)) : Nat → List Char → List Char
  | 0, l => l
  | _ + 1, [] => []
  | fuel + 1, c :: rest =>
    match varMatchAt (c :: rest) with
    | some key =>
      (argsGet args (String.mk key)).toList ++
        replaceArgsGo args fuel (rest.drop (key.length + 2))
    | none => c :: replaceArgsGo args fuel rest

/-- Embedding of `replaceArgsInString`: substitute every `${name}` by the
current table value (empty string when unknown). -/
def replaceArgsInString (args : List (String × String)) (l : List Char) : List Char :=
  replaceArgsGo args l.length l

/-- Literal prefix of the pattern `PLATFORM_REGEX` (global regular
expression matching `--platform=` followed by a nonempty non-whitespace
run). -/
def PLATFORM_PREFIX : List Char := "--platform=".toList

/-- Match of the platform pattern anchored at the start of `l`: the literal
`--platform=` followed by a nonempty maximal run of non-whitespace
characters; returns that run. -/
def platMatchAt (l : List Char) : Option (List Char) :=
  if PLATFORM_PREFIX.isPrefixOf l then
    let run := (l.drop 11).takeWhile (fun c => !(jsSpace c))
    if run.isEmpty then none else some run
  else none

/-- Fuelled scan implementing `imageData.replace(PLATFORM_REGEX, '')`. -/
def removePlatformGo : Nat → List Char → List Char
  | 0, l => l
  | _ + 1, [] => []
  | fuel + 1, c :: rest =>
    match platMatchAt (c :: rest) with
    | some run => removePlatformGo fuel (rest.drop (10 + run.length))
    | none => c :: removePlatformGo fuel rest

/-- Remove every `--platform=<value>` occurrence from the text. -/
def removePlatform (l : List Char) : List Char :=
  removePlatformGo l.length l

/-- First match of `line.match(PLATFORM_REGEX)`: the captured non-whitespace
run of the leftmost occurrence, or `none`. -/
def findPlatformValue : List Char → Option (List Char)
  | [] => none
  | c :: rest =>
    match platMatchAt (c :: rest) with
    | some run => some run
    | none => findPlatformValue rest

/-- The platform recorded for a line: `platformMatch[0].split('=')[1]`, i.e.
the first platform occurrence's value up to the next `=`, or the empty
string when the pattern does not occur. -/
def platformValueOf (l : List Char) : List Char :=
  match findPlatformValue l with
  | some run => run.takeWhile (fun c => c != '=')
  | none => []

/-- Match of `AS_REGEX = /\s+AS\s+\S+/gi` anchored at the start of `l`:
a nonempty maximal whitespace run, the letters `AS` (case-insensitive), a
nonempty maximal whitespace run, and a nonempty maximal non-whitespace run;
returns the total length of the match. -/
def matchASAt (l : List Char) : Option Nat :=
  if (l.takeWhile jsSpace).isEmpty then none
  else
    match l.drop (l.takeWhile jsSpace).length with
    | a :: s :: r2 =>
      if (a == 'A' || a == 'a') && (s == 'S' || s == 's') then
        if (r2.takeWhile jsSpace).isEmpty then none
        else
          if ((r2.drop (r2.takeWhile jsSpace).length).takeWhile
                (fun c => !(jsSpace c))).isEmpty then none
          else
            some ((l.takeWhile jsSpace).length + 2 + (r2.takeWhile jsSpace).length +
              ((r2.drop (r2.takeWhile jsSpace).length).takeWhile
                (fun c => !(jsSpace c))).length)
      else none
    | _ => none

/-- Fuelled scan implementing `imageData.replace(AS_REGEX, '')`: every
occurrence of the alias pattern is removed, scanning resumes after each
removed fragment. -/
def removeASGo : Nat → List Char → List Char
  | 0, l => l
  | _ + 1, [] => []
  | fuel + 1, c :: rest =>
    match matchASAt (c :: rest) with
    | some n => removeASGo fuel (rest.drop (n - 1))
    | none => c :: removeASGo fuel rest

/-- Remove every build-stage alias fragment from the text. -/
def removeAS (l : List Char) : List Char :=
  removeASGo l.length l

/-- Image reference produced per `FROM` line (interface `IImageRef`). -/
structure IImageRef where
  image : String
  platform : String
deriving DecidableEq, Repr

/-- Effect of the `ARG` branch of `parseLine` on the argument table: on a
match, the trimmed capture is split on `=`; segment 0 is the name and
segment 1 (or the empty string when absent) is the stored value. -/
def argsUpdate (args : List (String × String)) (l : List Char) : List (String × String) :=
  match matchDirective ARG_KEYWORD l with
  | some cap =>
    argsSet args (String.mk ((splitOnChar '=' (trimJs cap)).headD []))
      (String.mk (((splitOnChar '=' (trimJs cap)).drop 1).headD []))
  | none => args

/-- Pipeline applied to the `FROM` capture: variable substitution, platform
qualifier removal, alias removal, trim. -/
def resolveImageText (args : List (String × String)) (cap : List Char) : List Char :=
  trimJs (removeAS (removePlatform (replaceArgsInString args cap)))

/-- The `FROM` branch of `parseLine`: on a match, resolve the capture; the
literal result `scratch` is discarded, anything else (including the empty
string) yields a reference whose platform is taken from the original line. -/
def fromRef (args : List (String × String)) (l : List Char) : Option IImageRef :=
  match matchDirective FROM_KEYWORD l with
  | some cap =>
    if resolveImageText args cap = "scratch".toList then none
    else some { image := String.mk (resolveImageText args cap),
                platform := String.mk (platformValueOf l) }
  | none => none

/-- Embedding of `DockerImageAnalysis.parseLine`: the `ARG` branch updates
the table first, then the `FROM` branch reads the updated table. -/
def parseLine (args : List (String × String)) (line : String) :
    List (String × String) × Option IImageRef :=
  (argsUpdate args line.toList, fromRef (argsUpdate args line.toList) line.toList)

/-- Embedding of the `reduce` in `collectImages`, threading the mutable
`this.args` state through the lines. -/
def collectImagesAux (args : List (String × String)) : List String → List IImageRef
  | [] => []
  | l :: ls =>
    match parseLine args l with
    | (args1, some r) => r :: collectImagesAux args1 ls
    | (args1, none) => collectImagesAux args1 ls

/-- Embedding of `DockerImageAnalysis.collectImages` (the instance starts
with an empty argument table). -/
def collectImages (lines : List String) : List IImageRef :=
  collectImagesAux [] lines

/-- Argument-table state after processing a list of lines. -/
def argsAfter (args : List (String × String)) : List String → List (String × String)
  | [] => args
  | l :: ls => argsAfter (parseLine args l).1 ls

/-- Splitting of the manifest contents: `contentString.split('\n')`, no
carriage-return normalization. -/
def splitLines (s : String) : List String :=
  (splitOnChar '\n' s.toList).map String.mk

/-- Modelled from the spec: the four progress status messages
(`StatusMessages` from a constants module not included in the sources) are
"analyzing dependencies", "generating output", "success" and "failure"
phases. -/
inductive Phase
  | analyzing
  | generating
  | success
  | failure
deriving DecidableEq, Repr

/-- Observable collaborator events of one orchestration run.  `progress` is
a `p.report` to the progress collaborator; `display` is a call to the
display collaborator (`updateCurrentWebviewPanel`, modelled from the spec:
its module is not included in the sources; it receives the report payload or
the sentinel `"error"`); `callService` is the invocation of the external
analysis capability with the collected references. -/
inductive Ev
  | progress (phase : Phase)
  | display (payload : String)
  | callService (images : List IImageRef)
deriving DecidableEq, Repr

/-- Embedding of `parseTxtDoc`: the file-system read is modelled by its
outcome.  On failure the display collaborator is notified with the error
marker and the error is re-raised; on success the contents are split into
lines. -/
def parseTxtDoc (file : Except String String) : List Ev × Except String (List String) :=
  match file with
  | Except.ok s => ([], Except.ok (splitLines s))
  | Except.error e => ([Ev.display "error"], Except.error e)

/-- Embedding of `runImageAnalysis`.  The progress wrapper
(`vscode.window.withProgress`) forwards the outcome of its task, so a
rejection of the inner promise reaches the `catch` block, which notifies the
display collaborator with the error marker and re-raises.  On success the
report payload is delivered to the display collaborator between the
"generating" and "success" progress reports and stored as the result. -/
def runImageAnalysis (images : List IImageRef)
    (service : List IImageRef → Except String String) :
    List Ev × Except String String :=
  match service images with
  | Except.ok resp =>
    ([Ev.progress Phase.analyzing, Ev.callService images,
      Ev.progress Phase.generating, Ev.display resp, Ev.progress Phase.success],
     Except.ok resp)
  | Except.error e =>
    ([Ev.progress Phase.analyzing, Ev.callService images,
      Ev.progress Phase.failure, Ev.display "error"],
     Except.error e)

/-- Embedding of `executeDockerImageAnalysis`: construct the analysis value
(read and parse the manifest), run the analysis, return the report HTML; any
error from either stage propagates to the caller. -/
def executeDockerImageAnalysis (file : Except String String)
    (service : List IImageRef → Except String String) :
    List Ev × Except String String :=
  match parseTxtDoc file with
  | (evs, Except.error e) => (evs, Except.error e)
  | (evs, Except.ok lines) =>
    (evs ++ (runImageAnalysis (collectImages lines) service).1,
     (runImageAnalysis (collectImages lines) service).2)

/-! ## Helper lemmas -/

theorem ARG_KEYWORD_eq : ARG_KEYWORD = 'A' :: 'R' :: 'G' :: [] := rfl

theorem FROM_KEYWORD_eq : FROM_KEYWORD = 'F' :: 'R' :: 'O' :: 'M' :: [] := rfl

/-- The two directive patterns cannot match the same line: after the shared
optional leading whitespace one requires the letter `A` and the other the
letter `F`. -/
theorem directive_exclusive (l : List Char) :
    matchDirective ARG_KEYWORD l = none ∨ matchDirective FROM_KEYWORD l = none := by
  cases h : dropJsSpaces l with
  | nil =>
    left
    simp [matchDirective, h, ARG_KEYWORD_eq]
  | cons c cs =>
    by_cases hc : c = 'A'
    · right
      have hb : (('F' : Char) == c) = false := by
        rw [hc]; decide
      simp [matchDirective, h, FROM_KEYWORD_eq, List.isPrefixOf_cons₂, hb]
    · left
      have hb : (('A' : Char) == c) = false := by
        rw [beq_eq_false_iff_ne]
        exact fun hh => hc hh.symm
      simp [matchDirective, h, ARG_KEYWORD_eq, List.isPrefixOf_cons₂, hb]

theorem argsUpdate_of_none {args : List (String × String)} {l : List Char}
    (h : matchDirective ARG_KEYWORD l = none) : argsUpdate args l = args := by
  simp [argsUpdate, h]

theorem fromRef_of_none {args : List (String × String)} {l : List Char}
    (h : matchDirective FROM_KEYWORD l = none) : fromRef args l = none := by
  simp [fromRef, h]

/-- A `FROM` line never touches the argument table, so the reference it
produces is computed from the table state left by the preceding lines. -/
theorem parseLine_snd_eq_fromRef (args : List (String × String)) (line : String) :
    (parseLine args line).2 = fromRef args line.toList := by
  rcases directive_exclusive line.toList with h | h
  · rw [parseLine, argsUpdate_of_none h]
  · rw [parseLine, fromRef_of_none h, fromRef_of_none h]

/-- Any reference returned by the `FROM` branch has an image different from
the literal `scratch`. -/
theorem fromRef_image_ne_scratch {args : List (String × String)} {l : List Char}
    {r : IImageRef} (h : fromRef args l = some r) : r.image ≠ "scratch" := by
  unfold fromRef at h
  split at h
  · split at h
    · exact absurd h (by simp)
    · rename_i cap hcap hne
      intro hr
      apply hne
      have : r.image = String.mk (resolveImageText args cap) := by
        cases h
        rfl
      have hdata := congrArg String.toList (this.symm.trans hr)
      simpa using hdata
  · exact absurd h (by simp)

theorem collectImagesAux_image_ne_scratch (args : List (String × String))
    (lines : List String) :
    ∀ r ∈ collectImagesAux args lines, r.image ≠ "scratch" := by
  induction lines generalizing args with
  | nil => intro r hr; simp [collectImagesAux] at hr
  | cons l ls ih =>
    intro r hr
    rw [collectImagesAux] at hr
    rcases hp : parseLine args l with ⟨args1, ref⟩
    rw [hp] at hr
    cases ref with
    | none => exact ih args1 r hr
    | some r0 =>
      rcases List.mem_cons.mp hr with h | h
      · subst h
        have hf : fromRef args l.toList = some r := by
          have := parseLine_snd_eq_fromRef args l
          rw [hp] at this
          exact this.symm
        exact fromRef_image_ne_scratch hf
      · exact ih args1 r h

/-! ## Claims -/

/-- C1: on the four-line example manifest the collector returns exactly the
two expected references in order; in general the collector processes lines
in document order, appending the reference (if any) produced per line, so
duplicates are preserved and the output of a concatenation is the
concatenation of the outputs (the second part run from the table state the
first part leaves behind). -/
theorem claim_C1 :
    collectImages ["ARG VER=3.18", "FROM --platform=linux/arm64 alpine:${VER} AS base",
        "FROM scratch", "FROM ubuntu:22.04"] =
      [⟨"alpine:3.18", "linux/arm64"⟩, ⟨"ubuntu:22.04", ""⟩] ∧
    (∀ (args : List (String × String)) (ls1 ls2 : List String),
      collectImagesAux args (ls1 ++ ls2) =
        collectImagesAux args ls1 ++ collectImagesAux (argsAfter args ls1) ls2) ∧
    (∀ (args : List (String × String)) (l : String),
      collectImagesAux args [l] = ((parseLine args l).2).toList) := by
  refine ⟨by decide, ?_, ?_⟩
  · intro args ls1 ls2
    induction ls1 generalizing args with
    | nil => simp [collectImagesAux, argsAfter]
    | cons l ls ih =>
      rw [List.cons_append, collectImagesAux, collectImagesAux]
      rcases hp : parseLine args l with ⟨args1, ref⟩
      cases ref with
      | none => simp [argsAfter, hp, ih args1]
      | some r => simp [argsAfter, hp, ih args1]
  · intro args l
    rw [collectImagesAux]
    rcases hp : parseLine args l with ⟨args1, ref⟩
    cases ref <;> simp [collectImagesAux]

/-- C5: a `FROM` line whose resolved image text is exactly `scratch`
produces no reference, and no reference in any collector output carries the
image `scratch`. -/
theorem claim_C5 :
    (∀ (args : List (String × String)) (line : String) (cap : List Char),
      matchDirective FROM_KEYWORD line.toList = some cap →
      resolveImageText (argsUpdate args line.toList) cap = "scratch".toList →
      (parseLine args line).2 = none) ∧
    (∀ (lines : List String), ∀ r ∈ collectImages lines, r.image ≠ "scratch") := by
  constructor
  · intro args line cap hcap hres
    show fromRef (argsUpdate args line.toList) line.toList = none
    rw [fromRef, hcap]
    simp only [if_pos hres]
  · intro lines
    exact collectImagesAux_image_ne_scratch [] lines

/-- C5 witness: `FROM scratch` is dropped, and a produced reference such as
the one for `FROM ubuntu` has an image different from `scratch`. -/
theorem claim_C5_witness :
    (parseLine [] "FROM scratch").2 = none ∧
    ∀ r ∈ collectImages ["FROM ubuntu"], r.image ≠ "scratch" :=
  ⟨claim_C5.1 [] "FROM scratch" "scratch".toList (by decide) (by decide),
   claim_C5.2 ["FROM ubuntu"]⟩

/-- C6: when the manifest read fails, the display collaborator receives
exactly one error marker, the error propagates to the caller of the
top-level entry point, and the analysis service is never invoked (the trace
holds no progress and no service-call event). -/
theorem claim_C6 :
    ∀ (e : String) (service : List IImageRef → Except String String),
      executeDockerImageAnalysis (Except.error e) service =
        ([Ev.display "error"], Except.error e) :=
  fun _ _ => rfl

/-- C7: the reference produced for a line is always the one computed from
the argument table accumulated strictly before that line (an `ARG` line
never produces a reference, a `FROM` line never updates the table), and the
two concrete manifests show that an `ARG` above a `FROM` is substituted
while an `ARG` below it is not. -/
theorem claim_C7 :
    (∀ (args : List (String × String)) (line : String),
      (parseLine args line).2 = fromRef args line.toList) ∧
    collectImages ["ARG V=foo", "FROM base:${V}"] = [⟨"base:foo", ""⟩] ∧
    collectImages ["FROM base:${V}", "ARG V=foo"] = [⟨"base:", ""⟩] :=
  ⟨parseLine_snd_eq_fromRef, by decide, by decide⟩

/-- C10: no line matches both directive patterns (both anchor their keyword
after the optional leading whitespace, and the keywords start with different
letters), hence a single line never both updates the argument table and
produces a reference. -/
theorem claim_C10 :
    (∀ line : String,
      matchDirective ARG_KEYWORD line.toList = none ∨
      matchDirective FROM_KEYWORD line.toList = none) ∧
    (∀ (args : List (String × String)) (line : String),
      (parseLine args line).1 = args ∨ (parseLine args line).2 = none) := by
  refine ⟨fun line => directive_exclusive line.toList, fun args line => ?_⟩
  rcases directive_exclusive line.toList with h | h
  · left
    show argsUpdate args line.toList = args
    exact argsUpdate_of_none h
  · right
    show fromRef (argsUpdate args line.toList) line.toList = none
    exact fromRef_of_none h

/-- C2 counterexample: when the external analysis call rejects, the rejection
propagates through the progress wrapper into the orchestrator's catch block,
which delivers the error marker to the display collaborator — contradicting
the claim that no error marker reaches the display collaborator on this
path. -/
theorem claim_C2_cex :
    Ev.display "error" ∈
      (executeDockerImageAnalysis (Except.ok "FROM ubuntu:22.04")
        (fun _ => Except.error "boom")).1 := by decide

/-- C2 (amended): a rejecting external analysis call produces exactly one
"failure" progress report, followed by exactly one `"error"` display
notification issued by the orchestrator's catch block, and the rejection
propagates to the caller. -/
theorem claim_C2_amended :
    ∀ (contents e : String) (service : List IImageRef → Except String String),
      service (collectImages (splitLines contents)) = Except.error e →
      executeDockerImageAnalysis (Except.ok contents) service =
        ([Ev.progress Phase.analyzing,
          Ev.callService (collectImages (splitLines contents)),
          Ev.progress Phase.failure, Ev.display "error"], Except.error e) := by
  intro contents e service h
  simp [executeDockerImageAnalysis, parseTxtDoc, runImageAnalysis, h]

/-- C2 witness: a concrete failing run with its full event trace. -/
theorem claim_C2_witness :
    executeDockerImageAnalysis (Except.ok "FROM ubuntu:22.04")
        (fun _ => Except.error "boom") =
      ([Ev.progress Phase.analyzing, Ev.callService [⟨"ubuntu:22.04", ""⟩],
        Ev.progress Phase.failure, Ev.display "error"], Except.error "boom") :=
  claim_C2_amended "FROM ubuntu:22.04" "boom" (fun _ => Except.error "boom") rfl

/-- C8: on a successful run the trace is exactly: "analyzing" progress
report, the external call with the collected references, "generating"
progress report, delivery of the payload to the display collaborator,
"success" progress report; and the entry point resolves to the payload. -/
theorem claim_C8 :
    ∀ (contents s : String) (service : List IImageRef → Except String String),
      service (collectImages (splitLines contents)) = Except.ok s →
      executeDockerImageAnalysis (Except.ok contents) service =
        ([Ev.progress Phase.analyzing,
          Ev.callService (collectImages (splitLines contents)),
          Ev.progress Phase.generating, Ev.display s, Ev.progress Phase.success],
         Except.ok s) := by
  intro contents s service h
  simp [executeDockerImageAnalysis, parseTxtDoc, runImageAnalysis, h]

/-- C8 witness: a concrete successful run with its full event trace. -/
theorem claim_C8_witness :
    executeDockerImageAnalysis (Except.ok "FROM ubuntu:22.04")
        (fun _ => Except.ok "REPORT") =
      ([Ev.progress Phase.analyzing, Ev.callService [⟨"ubuntu:22.04", ""⟩],
        Ev.progress Phase.generating, Ev.display "REPORT", Ev.progress Phase.success],
       Except.ok "REPORT") :=
  claim_C8 "FROM ubuntu:22.04" "REPORT" (fun _ => Except.ok "REPORT") rfl

/-- C4 counterexample: the parser checks only for the literal `scratch`, so a
`FROM` line whose substitution result is empty yields a reference with an
empty image, refuting the non-emptiness invariant. -/
theorem claim_C4_cex :
    collectImages ["FROM ${UNSET}"] = [⟨"", ""⟩] ∧
    ¬(∀ (lines : List String), ∀ r ∈ collectImages lines, r.image ≠ "") := by
  refine ⟨by decide, fun h => ?_⟩
  exact h ["FROM ${UNSET}"] ⟨"", ""⟩ (by decide) rfl

/-- C4 (amended): the image of a produced reference is exactly the resolved
text of the `FROM` capture, which may be empty — only the literal `scratch`
is discarded; in particular `FROM UNSET-variable` yields a reference with an
empty image. -/
theorem claim_C4_amended :
    (parseLine [] "FROM ${UNSET}").2 = some ⟨"", ""⟩ ∧
    (∀ (args : List (String × String)) (line : String) (cap : List Char),
      matchDirective FROM_KEYWORD line.toList = some cap →
      resolveImageText (argsUpdate args line.toList) cap ≠ "scratch".toList →
      (parseLine args line).2 =
        some ⟨String.mk (resolveImageText (argsUpdate args line.toList) cap),
              String.mk (platformValueOf line.toList)⟩) := by
  refine ⟨by decide, fun args line cap hcap hne => ?_⟩
  show fromRef (argsUpdate args line.toList) line.toList = _
  rw [fromRef, hcap]
  simp only [if_neg hne]

/-- C4 witness: the amended statement applied to the unknown-variable line. -/
theorem claim_C4_witness :
    (parseLine [] "FROM ${UNSET}").2 =
      some ⟨String.mk (resolveImageText (argsUpdate [] "FROM ${UNSET}".toList)
              "${UNSET}".toList),
            String.mk (platformValueOf "FROM ${UNSET}".toList)⟩ :=
  claim_C4_amended.2 [] "FROM ${UNSET}" "${UNSET}".toList (by decide) (by decide)

theorem splitOnChar_ne_nil (sep : Char) (l : List Char) : splitOnChar sep l ≠ [] := by
  induction l with
  | nil => simp [splitOnChar]
  | cons c rest ih =>
    rw [splitOnChar]
    rcases hm : splitOnChar sep rest with _ | ⟨s, ss⟩
    · simp
    · split
      · simp
      · split <;> simp

theorem splitOnChar_sep_append (sep : Char) (a rest : List Char) (ha : sep ∉ a) :
    splitOnChar sep (a ++ sep :: rest) = a :: splitOnChar sep rest := by
  induction a with
  | nil =>
    rw [List.nil_append, splitOnChar]
    rcases hm : splitOnChar sep rest with _ | ⟨s, ss⟩
    · exact absurd hm (splitOnChar_ne_nil sep rest)
    · simp [hm]
  | cons c a2 ih =>
    have hc : ¬(c = sep) := fun hh => ha (hh ▸ List.mem_cons_self c a2)
    have ha2 : sep ∉ a2 := fun hh => ha (List.mem_cons_of_mem c hh)
    rw [List.cons_append, splitOnChar, ih ha2]
    simp [hc]

/-- C3 counterexample: for `ARG V=a=b` the stored value of `V` is `a`, the
text between the first and second `=`, not the full remainder `a=b`. -/
theorem claim_C3_cex :
    argsGet (parseLine [] "ARG V=a=b").1 "V" = "a" ∧
    argsGet (parseLine [] "ARG V=a=b").1 "V" ≠ "a=b" := by decide

/-- C3 (amended): an `ARG` match stores, under the name given by the text
before the first `=`, only the text between the first and second `=` (empty
when there is no `=`), overwriting any prior binding; the split produces one
segment per `=`-free run, so a value containing further `=` characters is
truncated at the second `=`. -/
theorem claim_C3_amended :
    (∀ (args : List (String × String)) (line : String) (k : String),
      argsGet (parseLine args line).1 k =
        match matchDirective ARG_KEYWORD line.toList with
        | none => argsGet args k
        | some cap =>
          if String.mk ((splitOnChar '=' (trimJs cap)).headD []) = k then
            String.mk (((splitOnChar '=' (trimJs cap)).drop 1).headD [])
          else argsGet args k) ∧
    (∀ a b c : List Char, '=' ∉ a → '=' ∉ b →
      splitOnChar '=' (a ++ '=' :: (b ++ '=' :: c)) =
        a :: b :: splitOnChar '=' c) ∧
    argsGet (parseLine [] "ARG V=a=b").1 "V" = "a" := by
  refine ⟨fun args line k => ?_, fun a b c ha hb => ?_, by decide⟩
  · show argsGet (argsUpdate args line.toList) k = _
    cases h : matchDirective ARG_KEYWORD line.toList with
    | none => rw [argsUpdate, h]
    | some cap =>
      rw [argsUpdate, h]
      rfl
  · rw [splitOnChar_sep_append '=' a (b ++ '=' :: c) ha,
      splitOnChar_sep_append '=' b c hb]

/-- C3 witness: the split lemma applied to the `V=a=b` assignment text. -/
theorem claim_C3_witness :
    splitOnChar '=' ("V".toList ++ '=' :: ("a".toList ++ '=' :: "b".toList)) =
      ["V".toList, "a".toList, "b".toList] :=
  claim_C3_amended.2.1 "V".toList "a".toList "b".toList (by decide) (by decide)

theorem matchASAt_pos {l : List Char} {n : Nat} (h : matchASAt l = some n) : 1 ≤ n := by
  unfold matchASAt at h
  by_cases h1 : (l.takeWhile jsSpace).isEmpty
  · simp [h1] at h
  · rw [if_neg h1] at h
    split at h
    · split at h
      · split at h
        · simp at h
        · split at h
          · simp at h
          · rcases Option.some.inj h with rfl
            omega
      · simp at h
    · simp at h

theorem removeASGo_succ_cons (fuel : Nat) (c : Char) (rest : List Char) :
    removeASGo (fuel + 1) (c :: rest) =
      match matchASAt (c :: rest) with
      | some n => removeASGo fuel (rest.drop (n - 1))
      | none => c :: removeASGo fuel rest := rfl

theorem removeASGo_fuel :
    ∀ (f1 f2 : Nat) (l : List Char), l.length ≤ f1 → l.length ≤ f2 →
      removeASGo f1 l = removeASGo f2 l := by
  intro f1
  induction f1 with
  | zero =>
    intro f2 l h1 h2
    have hl : l = [] := List.eq_nil_of_length_eq_zero (Nat.le_zero.mp h1)
    subst hl
    cases f2 <;> rfl
  | succ f ih =>
    intro f2 l h1 h2
    cases l with
    | nil => cases f2 <;> rfl
    | cons c rest =>
      cases f2 with
      | zero => simp at h2
      | succ f2p =>
        rw [removeASGo_succ_cons f c rest, removeASGo_succ_cons f2p c rest]
        cases hm : matchASAt (c :: rest) with
        | some n =>
          show removeASGo f (rest.drop (n - 1)) = removeASGo f2p (rest.drop (n - 1))
          apply ih
          · have := List.length_drop (n - 1) rest
            simp at h1
            omega
          · have := List.length_drop (n - 1) rest
            simp at h2
            omega
        | none =>
          show c :: removeASGo f rest = c :: removeASGo f2p rest
          have hr1 : rest.length ≤ f := by simp at h1; omega
          have hr2 : rest.length ≤ f2p := by simp at h2; omega
          rw [ih f2p rest hr1 hr2]

theorem removeAS_step {l : List Char} {n : Nat} (h : matchASAt l = some n) :
    removeAS l = removeAS (l.drop n) := by
  cases l with
  | nil =>
    have hn : matchASAt ([] : List Char) = none := rfl
    rw [hn] at h
    cases h
  | cons c rest =>
    obtain ⟨m, rfl⟩ : ∃ m, n = m + 1 := ⟨n - 1, by have := matchASAt_pos h; omega⟩
    show removeASGo (rest.length + 1) (c :: rest) = _
    rw [removeASGo_succ_cons rest.length c rest, h]
    show removeASGo rest.length (rest.drop (m + 1 - 1)) = _
    have hd : (c :: rest).drop (m + 1) = rest.drop m := rfl
    rw [removeAS, hd]
    have hgoal : m + 1 - 1 = m := by omega
    rw [hgoal]
    apply removeASGo_fuel
    · have := List.length_drop m rest
      omega
    · exact Nat.le_refl _

/-- C9 counterexample: in `FROM repo AS x y` the fragment ` AS x` sits in a
non-trailing position, yet the parser removes it, yielding the image
`repo y` rather than leaving the line's text intact. -/
theorem claim_C9_cex :
    collectImages ["FROM repo AS x y"] = [⟨"repo y", ""⟩] ∧
    collectImages ["FROM repo AS x y"] ≠ [⟨"repo AS x y", ""⟩] := by decide

/-- C9 (amended): alias removal deletes every occurrence of the pattern
whitespace + `AS` (case-insensitive) + whitespace + token, anywhere in the
substituted text, resuming the scan after each removed fragment — not only a
trailing alias; a trailing alias is removed as a special case. -/
theorem claim_C9_amended :
    (∀ (l : List Char) (n : Nat), matchASAt l = some n →
      removeAS l = removeAS (l.drop n)) ∧
    (parseLine [] "FROM repo AS x y").2 = some ⟨"repo y", ""⟩ ∧
    (parseLine [] "FROM repo AS x").2 = some ⟨"repo", ""⟩ :=
  ⟨fun _ _ h => removeAS_step h, by decide, by decide⟩

/-- C9 witness: the scan-step law applied to the concrete text ` AS x y`,
whose leading fragment ` AS x` matches with length 5. -/
theorem claim_C9_witness :
    removeAS " AS x y".toList = removeAS (" AS x y".toList.drop 5) :=
  claim_C9_amended.1 " AS x y".toList 5 (by decide)
